import Mathlib

set_option maxRecDepth 100000

/-!
# Verification of the compound-interest projection engine

Shallow embedding of `src/sip_growth_streamlit.py`: the projection engine
`simulate_investment` and the report builder `build_yearly_df`.  Python floats
are modelled as rationals (`ℚ`), Python ints as `ℤ`, Python's `sorted` (a
stable sort by key) as `List.mergeSort`, and the dict
`{int(y * 12): amt for y, amt in increases}` as a last-wins lookup on the
sorted association list.
-/

/-- Python `int(q)`: truncation of a rational toward zero. -/
def pyInt (q : ℚ) : Int := if 0 ≤ q then ⌊q⌋ else -⌊-q⌋

/-- Python `int(round(q, 0))`: rounding half to even. -/
def pyRoundEven (q : ℚ) : Int :=
  let f := ⌊q⌋
  let frac := q - f
  if frac < 1/2 then f
  else if 1/2 < frac then f + 1
  else if f % 2 = 0 then f else f + 1

/-- The per-rate loop state of `simulate_investment`: running balance, the
currently active monthly contribution, the running invested total, and the
year-end balances recorded so far. -/
structure LoopState where
  balance : ℚ
  current_contribution : ℚ
  invested : ℚ
  yearly_values : List ℚ
deriving Repr, DecidableEq

/-- The dict `{int(y * 12): amt for y, amt in increases}` built from the
sorted increases list, queried at key `m`: later entries overwrite earlier
ones, so the lookup returns the last entry whose key `y * 12` equals `m`. -/
def increaseMap (incs : List (Int × ℚ)) : Int → Option ℚ :=
  fun m => ((incs.filter (fun p => p.1 * 12 == m)).getLast?).map Prod.snd

/-- One iteration of the month loop of `simulate_investment` at month `m`:
switch the active contribution if `m` has a scheduled increase, add the
contribution to balance and invested, apply the growth multiplier while
inside the compounding horizon, and record the balance every 12th month. -/
def simStep (increase_map : Int → Option ℚ) (compounding_months : Int) (r : ℚ)
    (m : Nat) (s : LoopState) : LoopState :=
  let c := (increase_map m).getD s.current_contribution
  let balance := s.balance + c
  let invested := s.invested + c
  let balance := if (m : Int) ≤ compounding_months then balance * (1 + r) else balance
  let yearly := if m % 12 == 0 then s.yearly_values ++ [balance] else s.yearly_values
  ⟨balance, c, invested, yearly⟩

/-- The state of the engine's month loop after the first `k` months
(months `1, 2, …, k`), starting from zero balance and the base monthly
contribution. -/
def simState (monthly_investment : ℚ) (increase_map : Int → Option ℚ)
    (compounding_months : Int) (r : ℚ) (k : Nat) : LoopState :=
  (List.range k).foldl (fun s i => simStep increase_map compounding_months r (i + 1) s)
    ⟨0, monthly_investment, 0, []⟩

/-- `simulate_investment` from the source: for each requested rate, walk the
months `1 .. (end_age - current_age) * 12`, and return per rate the list of
year-end balances together with the invested total, plus the total number of
years.  `compounding_end_age` is optional and Python's
`compounding_end_age or end_age` treats both `None` and `0` as absent. -/
def simulate_investment (current_age : Int) (monthly_investment : ℚ) (end_age : Int)
    (increases : List (Int × ℚ)) (rates : List ℚ) (compounding_end_age : Option Int) :
    List (ℚ × (List ℚ × ℚ)) × Int :=
  let incs := increases.mergeSort (fun a b => decide (a.1 ≤ b.1))
  let total_years := end_age - current_age
  let compounding_end :=
    match compounding_end_age with
    | none => end_age
    | some c => if c = 0 then end_age else c
  let compounding_years := compounding_end - current_age
  let months := (total_years * 12).toNat
  let imap := increaseMap incs
  let results := rates.map fun rate =>
    let r := rate / 100 / 12
    let s := simState monthly_investment imap (compounding_years * 12) r months
    (rate, (s.yearly_values, s.invested))
  (results, total_years)

/-- The body of the year loop computing the "Total Invested" column in
`build_yearly_df`: possibly advance to the next increase (at most one per
year, once the year strictly exceeds its trigger year), then add twelve
months of the active amount and record the truncated running total. -/
def investedRow (incs_sorted : List (Int × ℚ)) (st : ℚ × ℚ × Nat) (y : Int) :
    (ℚ × ℚ × Nat) × Int :=
  let (current_amt, total_invested, next_inc) := st
  let (current_amt, next_inc) :=
    match incs_sorted.get? next_inc with
    | some inc => if y > inc.1 then (inc.2, next_inc + 1) else (current_amt, next_inc)
    | none => (current_amt, next_inc)
  let total_invested := total_invested + current_amt * 12
  ((current_amt, total_invested, next_inc), pyInt total_invested)

/-- The "Total Invested" column of `build_yearly_df`: one truncated cumulative
value per year `1 .. total_years`. -/
def invested_amounts (total_years : Int) (incs_sorted : List (Int × ℚ))
    (monthly_investment : ℚ) : List Int :=
  (((List.range total_years.toNat).map (fun i => (i : Int) + 1)).foldl
    (fun (p : (ℚ × ℚ × Nat) × List Int) y =>
      let (st, out) := p
      let (st2, v) := investedRow incs_sorted st y
      (st2, out ++ [v]))
    ((monthly_investment, 0, 0), [])).2

/-- The tabular output of `build_yearly_df`: the Year and Age columns, one
rounded balance column per rate, and the Total Invested column. -/
structure YearlyDF where
  year : List Int
  age : List Int
  returns : List (ℚ × List Int)
  total_invested : List Int
deriving Repr, DecidableEq

/-- `build_yearly_df` from the source: years `1 .. total_years` paired with
ages, per-rate year-end balances rounded to whole units, and an independently
recomputed cumulative invested column. -/
def build_yearly_df (total_years : Int) (results : List (ℚ × (List ℚ × ℚ)))
    (increases : List (Int × ℚ)) (monthly_investment : ℚ) (rates : List ℚ)
    (starting_age : Int) : YearlyDF :=
  let years := (List.range total_years.toNat).map (fun i => (i : Int) + 1)
  let ages := years.map (fun y => starting_age + y)
  let returns := rates.map fun rate =>
    let vals := ((results.lookup rate).getD ([], 0)).1
    (rate, vals.map (fun v => pyRoundEven v))
  let incs_sorted := increases.mergeSort (fun a b => decide (a.1 ≤ b.1))
  ⟨years, ages, returns, invested_amounts total_years incs_sorted monthly_investment⟩

/-- The engine's month-loop state for explicit age parameters: the state
after `k` months of the simulation that `simulate_investment` runs when the
compounding horizon ends at age `compounding_end` and the rate is `rate`. -/
def engineState (current_age : Int) (monthly_investment : ℚ)
    (compounding_end : Int) (increases : List (Int × ℚ)) (rate : ℚ)
    (k : Nat) : LoopState :=
  simState monthly_investment
    (increaseMap (increases.mergeSort (fun a b => decide (a.1 ≤ b.1))))
    ((compounding_end - current_age) * 12) (rate / 100 / 12) k

/-! ## Basic lemmas about the month loop -/

theorem simStep_current_contribution (imap : Int → Option ℚ) (cm : Int) (r : ℚ)
    (m : Nat) (s : LoopState) :
    (simStep imap cm r m s).current_contribution
      = (imap m).getD s.current_contribution := rfl

theorem simStep_invested (imap : Int → Option ℚ) (cm : Int) (r : ℚ)
    (m : Nat) (s : LoopState) :
    (simStep imap cm r m s).invested
      = s.invested + (imap m).getD s.current_contribution := rfl

theorem simStep_balance (imap : Int → Option ℚ) (cm : Int) (r : ℚ)
    (m : Nat) (s : LoopState) :
    (simStep imap cm r m s).balance
      = if (m : Int) ≤ cm
          then (s.balance + (imap m).getD s.current_contribution) * (1 + r)
          else s.balance + (imap m).getD s.current_contribution := rfl

theorem simStep_yearly (imap : Int → Option ℚ) (cm : Int) (r : ℚ)
    (m : Nat) (s : LoopState) :
    (simStep imap cm r m s).yearly_values
      = if m % 12 == 0 then s.yearly_values ++ [(simStep imap cm r m s).balance]
        else s.yearly_values := rfl

theorem simState_zero (mi : ℚ) (imap : Int → Option ℚ) (cm : Int) (r : ℚ) :
    simState mi imap cm r 0 = ⟨0, mi, 0, []⟩ := rfl

theorem simState_succ (mi : ℚ) (imap : Int → Option ℚ) (cm : Int) (r : ℚ) (k : Nat) :
    simState mi imap cm r (k + 1)
      = simStep imap cm r (k + 1) (simState mi imap cm r k) := by
  simp [simState, List.range_succ]

/-- The year-end samples recorded by the loop: after `k` months the recorded
list is exactly the balance at months `12, 24, …, 12 * (k / 12)`. -/
theorem simState_yearly_eq (mi : ℚ) (imap : Int → Option ℚ) (cm : Int) (r : ℚ) :
    ∀ k, (simState mi imap cm r k).yearly_values
      = (List.range (k / 12)).map
          (fun j => (simState mi imap cm r (12 * (j + 1))).balance) := by
  intro k
  induction k with
  | zero => rfl
  | succ k ih =>
    rw [simState_succ, simStep_yearly, ih]
    by_cases h : (k + 1) % 12 = 0
    · have hdvd : 12 ∣ (k + 1) := Nat.dvd_of_mod_eq_zero h
      have hq : (k + 1) / 12 = k / 12 + 1 := by
        rw [Nat.succ_div, if_pos hdvd]
      have h12 : 12 * (k / 12 + 1) = k + 1 := by
        rw [← hq, Nat.mul_div_cancel' hdvd]
      rw [hq, List.range_succ, List.map_append]
      simp [h, h12, ← simState_succ]
    · have hnd : ¬ 12 ∣ (k + 1) := by omega
      have hq : (k + 1) / 12 = k / 12 := by
        rw [Nat.succ_div, if_neg hnd]
        omega
      simp [h, hq]

theorem simState_yearly_length (mi : ℚ) (imap : Int → Option ℚ) (cm : Int) (r : ℚ)
    (k : Nat) : (simState mi imap cm r k).yearly_values.length = k / 12 := by
  rw [simState_yearly_eq]; simp

/-- The active contribution and the invested total never depend on the rate. -/
theorem simState_invested_rate_free (mi : ℚ) (imap : Int → Option ℚ) (cm : Int)
    (r r' : ℚ) : ∀ k,
    (simState mi imap cm r k).current_contribution
        = (simState mi imap cm r' k).current_contribution
      ∧ (simState mi imap cm r k).invested = (simState mi imap cm r' k).invested := by
  intro k
  induction k with
  | zero => exact ⟨rfl, rfl⟩
  | succ k ih =>
    rw [simState_succ, simState_succ, simStep_current_contribution,
      simStep_current_contribution, simStep_invested, simStep_invested, ih.1, ih.2]
    exact ⟨rfl, rfl⟩

/-- With a zero monthly rate the balance coincides with the invested total. -/
theorem simState_balance_invested_of_rate_zero (mi : ℚ) (imap : Int → Option ℚ)
    (cm : Int) : ∀ k, (simState mi imap cm 0 k).balance = (simState mi imap cm 0 k).invested := by
  intro k
  induction k with
  | zero => rfl
  | succ k ih =>
    rw [simState_succ, simStep_balance, simStep_invested, ih]
    split <;> ring

/-! ## The sort is irrelevant to the increase lookup

Python's `sorted` is a stable sort, and the dict lookup keeps, per key, only
the last entry.  All entries sharing one key are mutually `≤`-related, so the
key class survives the stable sort unchanged and the lookup is the same on
the sorted and on the original list. -/

theorem getLast?_mem {α : Type} : ∀ (l : List α) (a : α), l.getLast? = some a → a ∈ l
  | [], _, h => by simp at h
  | [_], _, h => by simp_all
  | x :: y :: xs, a, h => by
    rw [List.getLast?_cons_cons] at h
    exact List.mem_cons_of_mem _ (getLast?_mem (y :: xs) a h)

theorem filter_mergeSort_key (l : List (Int × ℚ)) (m : Int) :
    (l.mergeSort (fun a b => decide (a.1 ≤ b.1))).filter (fun p => p.1 * 12 == m)
      = l.filter (fun p => p.1 * 12 == m) := by
  have htrans : ∀ a b c : Int × ℚ,
      decide (a.1 ≤ b.1) → decide (b.1 ≤ c.1) → decide (a.1 ≤ c.1) := by
    intro a b c hab hbc
    simp only [decide_eq_true_eq] at *
    omega
  have htotal : ∀ a b : Int × ℚ, decide (a.1 ≤ b.1) || decide (b.1 ≤ a.1) := by
    intro a b
    simp only [Bool.or_eq_true, decide_eq_true_eq]
    omega
  have hpair : (l.filter (fun p => p.1 * 12 == m)).Pairwise
      (fun a b : Int × ℚ => decide (a.1 ≤ b.1)) := by
    apply List.pairwise_of_forall_mem_list
    intro a ha b hb
    have ha2 := (List.mem_filter.mp ha).2
    have hb2 := (List.mem_filter.mp hb).2
    simp only [beq_iff_eq] at ha2 hb2
    simp only [decide_eq_true_eq]
    omega
  have h1 : List.Sublist (l.filter (fun p => p.1 * 12 == m))
      (l.mergeSort (fun a b => decide (a.1 ≤ b.1))) :=
    List.sublist_mergeSort htrans htotal hpair (List.filter_sublist l)
  have h2 := h1.filter (fun p => p.1 * 12 == m)
  simp only [List.filter_filter, Bool.and_self] at h2
  have hperm : List.Perm ((l.mergeSort (fun a b => decide (a.1 ≤ b.1))).filter
        (fun p => p.1 * 12 == m)) (l.filter (fun p => p.1 * 12 == m)) :=
    (l.mergeSort_perm (fun a b => decide (a.1 ≤ b.1))).filter _
  exact (h2.eq_of_length hperm.length_eq.symm).symm

theorem increaseMap_mergeSort (l : List (Int × ℚ)) :
    increaseMap (l.mergeSort (fun a b => decide (a.1 ≤ b.1))) = increaseMap l := by
  funext m
  unfold increaseMap
  rw [filter_mergeSort_key]

/-- `simulate_investment`, unfolded with the sorting step eliminated. -/
theorem simulate_investment_imap (current_age : Int) (mi : ℚ) (end_age : Int)
    (increases : List (Int × ℚ)) (rates : List ℚ) (ce : Option Int) :
    simulate_investment current_age mi end_age increases rates ce
      = (rates.map fun rate =>
          (rate,
            ((simState mi (increaseMap increases)
                (((match ce with | none => end_age | some c => if c = 0 then end_age else c)
                    - current_age) * 12)
                (rate / 100 / 12) (((end_age - current_age) * 12).toNat)).yearly_values,
             (simState mi (increaseMap increases)
                (((match ce with | none => end_age | some c => if c = 0 then end_age else c)
                    - current_age) * 12)
                (rate / 100 / 12) (((end_age - current_age) * 12).toNat)).invested)),
         end_age - current_age) := by
  simp only [simulate_investment, increaseMap_mergeSort]

/-- `engineState`, with the sorting step eliminated. -/
theorem engineState_eq (current_age : Int) (mi : ℚ) (compounding_end : Int)
    (increases : List (Int × ℚ)) (rate : ℚ) (k : Nat) :
    engineState current_age mi compounding_end increases rate k
      = simState mi (increaseMap increases) ((compounding_end - current_age) * 12)
          (rate / 100 / 12) k := by
  rw [engineState, increaseMap_mergeSort]

/-- The month loop only ever queries the increase lookup at months `≥ 1`. -/
theorem simState_congr_imap (mi : ℚ) (imap1 imap2 : Int → Option ℚ) (cm : Int) (r : ℚ)
    (h : ∀ m : Nat, 1 ≤ m → imap1 (m : Int) = imap2 (m : Int)) :
    ∀ k, simState mi imap1 cm r k = simState mi imap2 cm r k := by
  intro k
  induction k with
  | zero => rfl
  | succ k ih =>
    rw [simState_succ, simState_succ, ih]
    unfold simStep
    rw [h (k + 1) (by omega)]

/-! ## Claims -/

/-- C4: for every valid parameter set (`end_age > current_age`) and every
requested rate, the yearly balance sequence returned by the engine has
length exactly `end_age - current_age`. -/
theorem claim_C4 (current_age : Int) (mi : ℚ) (end_age : Int)
    (incs : List (Int × ℚ)) (rates : List ℚ) (ce : Option Int)
    (h : current_age < end_age) :
    ∀ p ∈ (simulate_investment current_age mi end_age incs rates ce).1,
      (p.2.1.length : Int) = end_age - current_age := by
  intro p hp
  rw [simulate_investment_imap] at hp
  simp only [List.mem_map] at hp
  obtain ⟨rate, hrate, rfl⟩ := hp
  simp only [simState_yearly_length]
  omega

theorem claim_C4_witness : ((([1200, 2400] : List ℚ).length : Int)) = 27 - 25 :=
  claim_C4 25 100 27 [] [0] none (by decide) (0, ([1200, 2400], 2400))
    (by rw [simulate_investment_imap]; with_unfolding_all decide)

/-- C6: for a requested rate of 0 and a valid parameter set, the final entry
of the yearly balance sequence equals the total contributed returned with
it. -/
theorem claim_C6 (current_age : Int) (mi : ℚ) (end_age : Int)
    (incs : List (Int × ℚ)) (rates : List ℚ) (ce : Option Int)
    (h : current_age < end_age) :
    ∀ p ∈ (simulate_investment current_age mi end_age incs rates ce).1,
      p.1 = 0 → p.2.1.getLast? = some p.2.2 := by
  intro p hp h0
  rw [simulate_investment_imap] at hp
  simp only [List.mem_map] at hp
  obtain ⟨rate, hrate, rfl⟩ := hp
  simp only at h0
  subst h0
  have hr : (0 : ℚ) / 100 / 12 = 0 := by norm_num
  simp only [hr]
  set months := ((end_age - current_age) * 12).toNat with hmonths
  rw [simState_yearly_eq]
  obtain ⟨n, hn⟩ : ∃ n, months / 12 = n + 1 := ⟨(end_age - current_age).toNat - 1, by omega⟩
  rw [hn, List.range_succ, List.map_append]
  simp only [List.map_cons, List.map_nil]
  rw [List.getLast?_concat]
  have h12 : 12 * (n + 1) = months := by omega
  rw [h12, simState_balance_invested_of_rate_zero]

theorem claim_C6_witness : (([1200, 2400] : List ℚ).getLast? = some 2400) :=
  claim_C6 25 100 27 [] [0] none (by decide) (0, ([1200, 2400], 2400))
    (by rw [simulate_investment_imap]; with_unfolding_all decide) rfl

/-- C7: on contradictory parameters (`end_age ≤ current_age`) the engine does
not fail: each rate maps to an empty yearly sequence with total contributed 0,
and the returned total of years is `end_age - current_age`. -/
theorem claim_C7 (current_age : Int) (mi : ℚ) (end_age : Int)
    (incs : List (Int × ℚ)) (rates : List ℚ) (ce : Option Int)
    (h : end_age ≤ current_age) :
    simulate_investment current_age mi end_age incs rates ce
      = (rates.map (fun rate => (rate, ([], 0))), end_age - current_age) := by
  rw [simulate_investment_imap]
  have hm : ((end_age - current_age) * 12).toNat = 0 := by omega
  simp [hm, simState_zero]

theorem claim_C7_witness :
    simulate_investment 30 100 25 [(1, 200)] [5, 8] none
      = ([(5, ([], 0)), (8, ([], 0))], 25 - 30) :=
  claim_C7 30 100 25 [(1, 200)] [5, 8] none (by decide)

/-- C8: the engine is deterministic and stateless — two calls with identical
parameters return identical outputs. -/
theorem claim_C8 (current_age : Int) (mi : ℚ) (end_age : Int)
    (incs : List (Int × ℚ)) (rates : List ℚ) (ce : Option Int) :
    simulate_investment current_age mi end_age incs rates ce
      = simulate_investment current_age mi end_age incs rates ce := rfl

/-- C9: within one call, the scalar total-contributed value is the same for
every requested rate — it never depends on the rate. -/
theorem claim_C9 (current_age : Int) (mi : ℚ) (end_age : Int)
    (incs : List (Int × ℚ)) (rates : List ℚ) (ce : Option Int) :
    ∀ p ∈ (simulate_investment current_age mi end_age incs rates ce).1,
      ∀ q ∈ (simulate_investment current_age mi end_age incs rates ce).1,
        p.2.2 = q.2.2 := by
  intro p hp q hq
  rw [simulate_investment_imap] at hp hq
  simp only [List.mem_map] at hp hq
  obtain ⟨rp, hrp, rfl⟩ := hp
  obtain ⟨rq, hrq, rfl⟩ := hq
  exact (simState_invested_rate_free mi (increaseMap incs) _
    (rp / 100 / 12) (rq / 100 / 12) _).2

theorem claim_C9_witness : (2400 : ℚ) = 2400 :=
  claim_C9 25 100 27 [] [0, 0] none (0, ([1200, 2400], 2400))
    (by rw [simulate_investment_imap]; with_unfolding_all decide) (0, ([1200, 2400], 2400))
    (by rw [simulate_investment_imap]; with_unfolding_all decide)

/-- Invariant of the month loop under non-negative rate and contributions:
the active contribution stays non-negative, the balance stays non-negative
and dominates every recorded year-end value, and the recorded year-end
values are non-decreasing. -/
theorem simState_mono (mi : ℚ) (imap : Int → Option ℚ) (cm : Int) (r : ℚ)
    (hmi : 0 ≤ mi) (hr : 0 ≤ r) (himap : ∀ m a, imap m = some a → 0 ≤ a) :
    ∀ k, 0 ≤ (simState mi imap cm r k).current_contribution
      ∧ 0 ≤ (simState mi imap cm r k).balance
      ∧ (∀ v ∈ (simState mi imap cm r k).yearly_values, v ≤ (simState mi imap cm r k).balance)
      ∧ List.Chain' (· ≤ ·) (simState mi imap cm r k).yearly_values := by
  intro k
  induction k with
  | zero =>
    refine ⟨hmi, le_refl 0, ?_, ?_⟩ <;> simp [simState_zero]
  | succ k ih =>
    obtain ⟨hc, hb, hy, hch⟩ := ih
    rw [simState_succ]
    set s := simState mi imap cm r k
    have hcontrib : 0 ≤ (imap ((k + 1 : Nat) : Int)).getD s.current_contribution := by
      cases hm : imap ((k + 1 : Nat) : Int) with
      | none => simpa using hc
      | some a => simpa using himap _ a hm
    have hb1 : 0 ≤ s.balance + (imap ((k + 1 : Nat) : Int)).getD s.current_contribution :=
      add_nonneg hb hcontrib
    have hbal : s.balance ≤ (simStep imap cm r (k + 1) s).balance
        ∧ 0 ≤ (simStep imap cm r (k + 1) s).balance := by
      by_cases hcmp : ((k + 1 : Nat) : Int) ≤ cm
      · rw [simStep_balance, if_pos hcmp]
        constructor
        · calc s.balance
              ≤ s.balance + (imap ((k + 1 : Nat) : Int)).getD s.current_contribution :=
                le_add_of_nonneg_right hcontrib
            _ ≤ (s.balance + (imap ((k + 1 : Nat) : Int)).getD s.current_contribution)
                  * (1 + r) := le_mul_of_one_le_right hb1 (by linarith)
        · exact mul_nonneg hb1 (by linarith)
      · rw [simStep_balance, if_neg hcmp]
        exact ⟨le_add_of_nonneg_right hcontrib, hb1⟩
    refine ⟨?_, hbal.2, ?_, ?_⟩
    · rw [simStep_current_contribution]
      exact hcontrib
    · intro v hv
      rw [simStep_yearly] at hv
      by_cases h12 : (k + 1) % 12 = 0
      · rw [if_pos (by simpa using h12)] at hv
        rcases List.mem_append.mp hv with hv | hv
        · exact le_trans (hy v hv) hbal.1
        · rw [List.mem_singleton.mp hv]
      · rw [if_neg (by simpa using h12)] at hv
        exact le_trans (hy v hv) hbal.1
    · rw [simStep_yearly]
      by_cases h12 : (k + 1) % 12 = 0
      · rw [if_pos (by simpa using h12)]
        rw [List.chain'_append]
        refine ⟨hch, List.chain'_singleton _, ?_⟩
        intro x hx y hy2
        have hx2 : x ∈ s.yearly_values := getLast?_mem _ _ hx
        have hy3 : (simStep imap cm r (k + 1) s).balance = y := by
          simpa using hy2
        rw [← hy3]
        exact le_trans (hy x hx2) hbal.1
      · rw [if_neg (by simpa using h12)]
        exact hch

/-- C5: with a non-negative rate, non-negative base contribution and
non-negative increase amounts, the yearly balance sequence of that rate is
non-decreasing. -/
theorem claim_C5 (current_age : Int) (mi : ℚ) (end_age : Int)
    (incs : List (Int × ℚ)) (rates : List ℚ) (ce : Option Int)
    (hmi : 0 ≤ mi) (hincs : ∀ q ∈ incs, 0 ≤ q.2) :
    ∀ p ∈ (simulate_investment current_age mi end_age incs rates ce).1,
      0 ≤ p.1 → List.Chain' (· ≤ ·) p.2.1 := by
  intro p hp hrate
  rw [simulate_investment_imap] at hp
  simp only [List.mem_map] at hp
  obtain ⟨rate, hr, rfl⟩ := hp
  simp only at hrate
  have hrdiv : 0 ≤ rate / 100 / 12 :=
    div_nonneg (div_nonneg hrate (by norm_num)) (by norm_num)
  have himap : ∀ m a, increaseMap incs m = some a → 0 ≤ a := by
    intro m a ha
    unfold increaseMap at ha
    cases hl : (incs.filter (fun p => p.1 * 12 == m)).getLast? with
    | none => rw [hl] at ha; simp at ha
    | some q =>
      rw [hl] at ha
      simp only [Option.map_some', Option.some.injEq] at ha
      have hq : q ∈ incs.filter (fun p => p.1 * 12 == m) := getLast?_mem _ _ hl
      have h2 := hincs q (List.mem_of_mem_filter hq)
      rw [← ha]
      exact h2
  exact (simState_mono mi (increaseMap incs) _ _ hmi hrdiv himap _).2.2.2

theorem claim_C5_witness : List.Chain' (· ≤ ·) ([1200, 2400] : List ℚ) :=
  claim_C5 25 100 27 [] [0] none (by norm_num) (by simp) (0, ([1200, 2400], 2400))
    (by rw [simulate_investment_imap]; with_unfolding_all decide) le_rfl

/-- C3: with `current_age < compounding_end < end_age` (ages are positive in
the data model), the engine applies the growth multiplier `(1 + rate/100/12)`
exactly in the months `m ≤ (compounding_end - current_age) * 12` and in no
later month, while every month up to the horizon still adds the active
contribution to both the balance and the invested total.  The first conjunct
ties `engineState` to the output of `simulate_investment`. -/
theorem claim_C3 (current_age compounding_end end_age : Int) (mi : ℚ)
    (incs : List (Int × ℚ)) (rate : ℚ) (m : Nat)
    (hage : 1 ≤ current_age) (h1 : current_age < compounding_end)
    (h2 : compounding_end < end_age) (hm1 : 1 ≤ m)
    (hm2 : (m : Int) ≤ (end_age - current_age) * 12) :
    (simulate_investment current_age mi end_age incs [rate] (some compounding_end)
        = ([(rate, ((engineState current_age mi compounding_end incs rate
              (((end_age - current_age) * 12).toNat)).yearly_values,
            (engineState current_age mi compounding_end incs rate
              (((end_age - current_age) * 12).toNat)).invested))],
           end_age - current_age))
    ∧ (engineState current_age mi compounding_end incs rate m).invested
        = (engineState current_age mi compounding_end incs rate (m - 1)).invested
          + (engineState current_age mi compounding_end incs rate m).current_contribution
    ∧ (engineState current_age mi compounding_end incs rate m).balance
        = (if (m : Int) ≤ (compounding_end - current_age) * 12
            then ((engineState current_age mi compounding_end incs rate (m - 1)).balance
                + (engineState current_age mi compounding_end incs rate m).current_contribution)
                * (1 + rate / 100 / 12)
            else (engineState current_age mi compounding_end incs rate (m - 1)).balance
                + (engineState current_age mi compounding_end incs rate m).current_contribution) := by
  have hce : compounding_end ≠ 0 := by omega
  obtain ⟨j, rfl⟩ : ∃ j, m = j + 1 := ⟨m - 1, by omega⟩
  refine ⟨?_, ?_, ?_⟩
  · rw [simulate_investment_imap]
    simp [engineState_eq, hce]
  · simp only [engineState_eq, Nat.add_sub_cancel]
    rw [simState_succ, simStep_invested, simStep_current_contribution]
  · simp only [engineState_eq, Nat.add_sub_cancel]
    rw [simState_succ, simStep_balance, simStep_current_contribution]

theorem claim_C3_witness :
    (simulate_investment 25 100 27 [] [0] (some 26)
        = ([(0, ((engineState 25 100 26 [] 0 24).yearly_values,
                 (engineState 25 100 26 [] 0 24).invested))], 27 - 25))
    ∧ (engineState 25 100 26 [] 0 13).invested
        = (engineState 25 100 26 [] 0 12).invested
          + (engineState 25 100 26 [] 0 13).current_contribution
    ∧ (engineState 25 100 26 [] 0 13).balance
        = (if (13 : Int) ≤ (26 - 25) * 12
            then ((engineState 25 100 26 [] 0 12).balance
                + (engineState 25 100 26 [] 0 13).current_contribution) * (1 + 0 / 100 / 12)
            else (engineState 25 100 26 [] 0 12).balance
                + (engineState 25 100 26 [] 0 13).current_contribution) :=
  claim_C3 25 26 27 100 [] 0 13 (by decide) (by decide) (by decide) (by decide) (by decide)

/-- C10: an increase scheduled with `afterYears = 0` is never applied: the
engine's whole output is unchanged when such an increase is removed from the
list, wherever it sits, because its month key `0` precedes the first
simulated month `1`. -/
theorem claim_C10 (current_age : Int) (mi : ℚ) (end_age : Int)
    (l1 l2 : List (Int × ℚ)) (a : ℚ) (rates : List ℚ) (ce : Option Int) :
    simulate_investment current_age mi end_age (l1 ++ [(0, a)] ++ l2) rates ce
      = simulate_investment current_age mi end_age (l1 ++ l2) rates ce := by
  rw [simulate_investment_imap, simulate_investment_imap]
  have himap : ∀ m : Nat, 1 ≤ m →
      increaseMap (l1 ++ [(0, a)] ++ l2) (m : Int) = increaseMap (l1 ++ l2) (m : Int) := by
    intro m hm
    unfold increaseMap
    simp only [List.filter_append]
    have hz : List.filter (fun p => p.1 * 12 == (m : Int)) [((0 : Int), a)] = [] := by
      simp
      omega
    rw [hz]
    simp
  have hs : ∀ (cm : Int) (r : ℚ) (k : Nat),
      simState mi (increaseMap (l1 ++ [(0, a)] ++ l2)) cm r k
        = simState mi (increaseMap (l1 ++ l2)) cm r k :=
    fun cm r k => simState_congr_imap mi _ _ cm r himap k
  simp only [hs]

/-- Splitting the month loop: running `a + b` months is running `a` months
and then `b` further months. -/
theorem simState_add (mi : ℚ) (imap : Int → Option ℚ) (cm : Int) (r : ℚ) (a b : Nat) :
    simState mi imap cm r (a + b)
      = (List.range b).foldl (fun s i => simStep imap cm r (a + (i + 1)) s)
          (simState mi imap cm r a) := by
  unfold simState
  rw [List.range_add, List.foldl_append, List.foldl_map]
  simp only [Nat.add_assoc]

/-- With a single scheduled increase `(N, amt)`, `N ≥ 1`, the active
contribution of the month loop is the base amount strictly before month
`N * 12` and the new amount from month `N * 12` onwards. -/
theorem simState_single_increase_contrib (mi : ℚ) (cm : Int) (r : ℚ)
    (N : Int) (amt : ℚ) (hN : 1 ≤ N) :
    ∀ m : Nat, (simState mi (increaseMap [(N, amt)]) cm r m).current_contribution
      = if (N * 12 : Int) ≤ (m : Int) then amt else mi := by
  intro m
  induction m with
  | zero =>
    rw [simState_zero, if_neg (by omega)]
  | succ m ih =>
    rw [simState_succ, simStep_current_contribution, ih]
    have hmap : increaseMap [(N, amt)] ((m + 1 : Nat) : Int)
        = if (N * 12 : Int) = ((m + 1 : Nat) : Int) then some amt else none := by
      unfold increaseMap
      rcases eq_or_ne (N * 12 : Int) ((m + 1 : Nat) : Int) with he | he
      · rw [if_pos he]
        simp [List.filter_cons, List.filter_nil, he]
      · rw [if_neg he]
        simp [List.filter_cons, List.filter_nil]
        omega
    rw [hmap]
    rcases eq_or_ne (N * 12 : Int) ((m + 1 : Nat) : Int) with he | he
    · rw [if_pos he]
      simp only [Option.getD_some]
      rw [if_pos (by push_cast at he ⊢; omega)]
    · rw [if_neg he]
      simp only [Option.getD_none]
      by_cases hle : (N * 12 : Int) ≤ (m : Int)
      · rw [if_pos hle, if_pos (by push_cast at hle ⊢; omega)]
      · rw [if_neg hle, if_neg (by push_cast at hle he ⊢; omega)]

/-- One loop step on an explicit state, as a structure literal. -/
theorem simStep_mk (imap : Int → Option ℚ) (cm : Int) (r : ℚ) (m : Nat)
    (b c0 inv : ℚ) (ys : List ℚ) :
    simStep imap cm r m ⟨b, c0, inv, ys⟩
      = ⟨if (m : Int) ≤ cm then (b + (imap m).getD c0) * (1 + r) else b + (imap m).getD c0,
         (imap m).getD c0,
         inv + (imap m).getD c0,
         if m % 12 == 0
           then ys ++ [if (m : Int) ≤ cm then (b + (imap m).getD c0) * (1 + r)
                       else b + (imap m).getD c0]
           else ys⟩ := rfl

/-- The increase lookup of the running example misses every month other
than 12. -/
theorem exMap : ∀ m : Nat, (m : Int) ≠ 12 →
    increaseMap [((1 : Int), (200 : ℚ))] (m : Int) = none := by
  intro m hm
  unfold increaseMap
  simp [List.filter_cons, List.filter_nil]
  omega

/-- The running example `startAge = 25, endAge = 27, base 100,
increases = [(1, 200)], rate 0` after 12 months: month 12 already uses the
increased contribution, so 1300 is invested. -/
theorem exampleState12 :
    simState 100 (increaseMap [(1, 200)]) 24 (0 / 100 / 12) 12
      = ⟨1300, 200, 1300, [1300]⟩ := by
  with_unfolding_all decide

/-- The running example after all 24 months: months 13–24 each add 200. -/
theorem exampleState24 :
    simState 100 (increaseMap [(1, 200)]) 24 (0 / 100 / 12) 24
      = ⟨3700, 200, 3700, [1300, 3700]⟩ := by
  have h13 : simState 100 (increaseMap [(1, 200)]) 24 (0 / 100 / 12) 13
      = ⟨1500, 200, 1500, [1300]⟩ := by
    rw [show (13 : ℕ) = 12 + 1 from rfl, simState_succ, exampleState12, simStep_mk,
      exMap 13 (by omega)]
    norm_num
  have h14 : simState 100 (increaseMap [(1, 200)]) 24 (0 / 100 / 12) 14
      = ⟨1700, 200, 1700, [1300]⟩ := by
    rw [show (14 : ℕ) = 13 + 1 from rfl, simState_succ, h13, simStep_mk,
      exMap 14 (by omega)]
    norm_num
  have h15 : simState 100 (increaseMap [(1, 200)]) 24 (0 / 100 / 12) 15
      = ⟨1900, 200, 1900, [1300]⟩ := by
    rw [show (15 : ℕ) = 14 + 1 from rfl, simState_succ, h14, simStep_mk,
      exMap 15 (by omega)]
    norm_num
  have h16 : simState 100 (increaseMap [(1, 200)]) 24 (0 / 100 / 12) 16
      = ⟨2100, 200, 2100, [1300]⟩ := by
    rw [show (16 : ℕ) = 15 + 1 from rfl, simState_succ, h15, simStep_mk,
      exMap 16 (by omega)]
    norm_num
  have h17 : simState 100 (increaseMap [(1, 200)]) 24 (0 / 100 / 12) 17
      = ⟨2300, 200, 2300, [1300]⟩ := by
    rw [show (17 : ℕ) = 16 + 1 from rfl, simState_succ, h16, simStep_mk,
      exMap 17 (by omega)]
    norm_num
  have h18 : simState 100 (increaseMap [(1, 200)]) 24 (0 / 100 / 12) 18
      = ⟨2500, 200, 2500, [1300]⟩ := by
    rw [show (18 : ℕ) = 17 + 1 from rfl, simState_succ, h17, simStep_mk,
      exMap 18 (by omega)]
    norm_num
  have h19 : simState 100 (increaseMap [(1, 200)]) 24 (0 / 100 / 12) 19
      = ⟨2700, 200, 2700, [1300]⟩ := by
    rw [show (19 : ℕ) = 18 + 1 from rfl, simState_succ, h18, simStep_mk,
      exMap 19 (by omega)]
    norm_num
  have h20 : simState 100 (increaseMap [(1, 200)]) 24 (0 / 100 / 12) 20
      = ⟨2900, 200, 2900, [1300]⟩ := by
    rw [show (20 : ℕ) = 19 + 1 from rfl, simState_succ, h19, simStep_mk,
      exMap 20 (by omega)]
    norm_num
  have h21 : simState 100 (increaseMap [(1, 200)]) 24 (0 / 100 / 12) 21
      = ⟨3100, 200, 3100, [1300]⟩ := by
    rw [show (21 : ℕ) = 20 + 1 from rfl, simState_succ, h20, simStep_mk,
      exMap 21 (by omega)]
    norm_num
  have h22 : simState 100 (increaseMap [(1, 200)]) 24 (0 / 100 / 12) 22
      = ⟨3300, 200, 3300, [1300]⟩ := by
    rw [show (22 : ℕ) = 21 + 1 from rfl, simState_succ, h21, simStep_mk,
      exMap 22 (by omega)]
    norm_num
  have h23 : simState 100 (increaseMap [(1, 200)]) 24 (0 / 100 / 12) 23
      = ⟨3500, 200, 3500, [1300]⟩ := by
    rw [show (23 : ℕ) = 22 + 1 from rfl, simState_succ, h22, simStep_mk,
      exMap 23 (by omega)]
    norm_num
  have h24 : simState 100 (increaseMap [(1, 200)]) 24 (0 / 100 / 12) 24
      = ⟨3700, 200, 3700, [1300, 3700]⟩ := by
    rw [show (24 : ℕ) = 23 + 1 from rfl, simState_succ, h23, simStep_mk,
      exMap 24 (by omega)]
    norm_num
  exact h24

theorem engineExample12 :
    engineState 25 100 27 [(1, 200)] 0 12 = ⟨1300, 200, 1300, [1300]⟩ := by
  rw [engineState_eq, show ((27 : Int) - 25) * 12 = 24 from by decide]
  exact exampleState12

theorem engineExample24 :
    engineState 25 100 27 [(1, 200)] 0 24 = ⟨3700, 200, 3700, [1300, 3700]⟩ := by
  rw [engineState_eq, show ((27 : Int) - 25) * 12 = 24 from by decide]
  exact exampleState24

/-- `simulate_investment` with no explicit compounding end age. -/
theorem simulate_investment_none (current_age : Int) (mi : ℚ) (end_age : Int)
    (incs : List (Int × ℚ)) (rates : List ℚ) :
    simulate_investment current_age mi end_age incs rates none
      = (rates.map fun rate =>
          (rate,
            ((simState mi (increaseMap incs) ((end_age - current_age) * 12)
                (rate / 100 / 12) (((end_age - current_age) * 12).toNat)).yearly_values,
             (simState mi (increaseMap incs) ((end_age - current_age) * 12)
                (rate / 100 / 12) (((end_age - current_age) * 12).toNat)).invested)),
         end_age - current_age) := by
  rw [simulate_investment_imap]

/-- The full engine output on the running example at rate 0. -/
theorem simExample :
    simulate_investment 25 100 27 [(1, 200)] [0] none
      = ([(0, ([1300, 3700], 3700))], 2) := by
  rw [simulate_investment_none]
  simp only [List.map_cons, List.map_nil]
  rw [show ((27 : Int) - 25) * 12 = 24 from by decide,
    show ((24 : Int)).toNat = 24 from rfl, exampleState24]
  norm_num

/-- C1, counterexample to the stated activation rule: with
`startAge = 25, endAge = 27, monthlyContribution = 100, increases = [(1, 200)]`
the engine's running invested total at the end of year 1 is 1300, not 1200:
month 12 already uses the increased contribution 200 (the increase map is
keyed at month `N * 12`, not `N * 12 + 1`), and at rate 0 the returned
yearly balances are `[1300, 3700]` with total contributed 3700, not
`[1200, 3600]` / 3600. -/
theorem claim_C1_counterexample :
    (engineState 25 100 27 [(1, 200)] 0 12).invested = 1300
    ∧ ¬ (engineState 25 100 27 [(1, 200)] 0 12).invested = 1200
    ∧ (engineState 25 100 27 [(1, 200)] 0 12).current_contribution = 200
    ∧ simulate_investment 25 100 27 [(1, 200)] [0] none
        = ([(0, ([1300, 3700], 3700))], 2) := by
  refine ⟨?_, ?_, ?_, simExample⟩
  · rw [engineExample12]
  · rw [engineExample12]
    norm_num
  · rw [engineExample12]

/-- C1, amended: a scheduled increase `(N, amt)` takes effect at month
`N * 12`: months `1 .. N*12 - 1` use the previously active contribution and
months `N*12` onward use the new amount.  In particular, for
`startAge = 25, endAge = 27, monthlyContribution = 100, increases = [(1, 200)]`,
months 1–11 contribute 100 and months 12–24 contribute 200, so the engine's
running invested total is 1300 at the end of year 1 and 3700 at the end of
year 2. -/
theorem claim_C1_amended (current_age : Int) (mi : ℚ) (compounding_end : Int)
    (N : Int) (amt : ℚ) (rate : ℚ) (m : Nat) (hN : 1 ≤ N) (hm : 1 ≤ m) :
    ((engineState current_age mi compounding_end [(N, amt)] rate m).current_contribution
        = if (N * 12 : Int) ≤ (m : Int) then amt else mi)
    ∧ (engineState 25 100 27 [(1, 200)] 0 12).invested = 1300
    ∧ (engineState 25 100 27 [(1, 200)] 0 24).invested = 3700
    ∧ simulate_investment 25 100 27 [(1, 200)] [0] none
        = ([(0, ([1300, 3700], 3700))], 2) := by
  refine ⟨?_, ?_, ?_, simExample⟩
  · rw [engineState_eq]
    exact simState_single_increase_contrib mi _ _ N amt hN m
  · rw [engineExample12]
  · rw [engineExample24]

theorem claim_C1_amended_witness :
    ((engineState 25 100 27 [(1, 200)] 0 12).current_contribution = 200)
    ∧ (engineState 25 100 27 [(1, 200)] 0 12).invested = 1300
    ∧ (engineState 25 100 27 [(1, 200)] 0 24).invested = 3700
    ∧ simulate_investment 25 100 27 [(1, 200)] [0] none
        = ([(0, ([1300, 3700], 3700))], 2) :=
  claim_C1_amended 25 100 27 1 200 0 12 (by decide) (by decide)

/-- C2, evaluation at the failing input: for
`startAge = 25, endAge = 27, monthlyContribution = 100, increases = [(1, 200)]`
the Report Builder's cumulative-invested column is `[1200, 3600]`, while the
engine's running invested total sampled at months 12 and 24 is 1300 and 3700:
the builder and the engine disagree in both years. -/
theorem claim_C2_divergence :
    (build_yearly_df (simulate_investment 25 100 27 [(1, 200)] [0] none).2
        (simulate_investment 25 100 27 [(1, 200)] [0] none).1
        [(1, 200)] 100 [0] 25).total_invested = [1200, 3600]
    ∧ (engineState 25 100 27 [(1, 200)] 0 12).invested = 1300
    ∧ (engineState 25 100 27 [(1, 200)] 0 24).invested = 3700
    ∧ ¬ (((1200 : Int) : ℚ) = (engineState 25 100 27 [(1, 200)] 0 12).invested) := by
  refine ⟨?_, ?_, ?_, ?_⟩
  · rw [simExample]
    simp only [build_yearly_df, List.mergeSort_singleton]
    with_unfolding_all decide
  · rw [engineExample12]
  · rw [engineExample24]
  · rw [engineExample12]
    norm_num
